import Mathlib

/-!
Verification of the `Radon.ipynb` notebook (pylops_pydata2020).

The notebook's own code builds a Radon projection operator `RadonRotate` out of
three external pylops building blocks (bilinear interpolation, summation over
one axis, vertical stacking of operators), computes error metrics, and calls
external solvers.  We embed the notebook's functions over an arbitrary linear
ordered field with a floor (instantiated at `ℚ` for executable tests and at
`ℝ` for the trigonometric parts), and model the external pylops operators from
the spec's description of them.
-/

set_option linter.unusedSectionVars false
set_option linter.unusedVariables false

section Core

variable {α : Type} [LinearOrderedField α] [FloorRing α]

/-- Dot product of two vectors, `np.dot(u, v)`. -/
def dotp {n : ℕ} (u v : Fin n → α) : α := ∑ i, u i * v i

/-- Row-major linear index bound: an (i, j) pair inside an `n1 × n2` grid
ravels to an index below `n1 * n2` (numpy C-order `ravel`). -/
theorem linIdx_lt {n1 n2 a b : ℕ} (ha : a < n1) (hb : b < n2) :
    a * n2 + b < n1 * n2 := by
  have h1 : a * n2 + b < (a + 1) * n2 := by nlinarith
  have h2 : (a + 1) * n2 ≤ n1 * n2 := Nat.mul_le_mul_right n2 ha
  omega

/-- Bound for the quotient when splitting a raveled index. -/
theorem div_lt_of_lt_mul {n1 n2 k : ℕ} (h : k < n1 * n2) : k / n2 < n1 :=
  Nat.div_lt_of_lt_mul (by rw [Nat.mul_comm]; exact h)

/-- Bound for the remainder when splitting a raveled index. -/
theorem mod_lt_of_lt_mul {n1 n2 k : ℕ} (h : k < n1 * n2) : k % n2 < n2 := by
  rcases Nat.eq_zero_or_pos n2 with h2 | h2
  · subst h2; omega
  · exact Nat.mod_lt _ h2

/-- The equivalence between pairs of grid indices and raveled indices
(numpy C-order: `(i, j) ↦ i * n2 + j`). -/
def ravelEquiv (n1 n2 : ℕ) : Fin n1 × Fin n2 ≃ Fin (n1 * n2) where
  toFun q := ⟨q.1 * n2 + q.2, linIdx_lt q.1.isLt q.2.isLt⟩
  invFun k := (⟨(k : ℕ) / n2, div_lt_of_lt_mul k.isLt⟩,
               ⟨(k : ℕ) % n2, mod_lt_of_lt_mul k.isLt⟩)
  left_inv := by
    rintro ⟨i, j⟩
    have hj := j.isLt
    have hdiv : ((i : ℕ) * n2 + (j : ℕ)) / n2 = (i : ℕ) := by
      rw [Nat.mul_comm, Nat.mul_add_div (by omega), Nat.div_eq_of_lt hj,
        Nat.add_zero]
    have hmod : ((i : ℕ) * n2 + (j : ℕ)) % n2 = (j : ℕ) := by
      rw [Nat.mul_comm, Nat.mul_add_mod]
      exact Nat.mod_eq_of_lt hj
    simp [hdiv, hmod]
  right_inv := by
    rintro ⟨k, hk⟩
    apply Fin.ext
    show k / n2 * n2 + k % n2 = k
    rw [Nat.mul_comm]
    exact Nat.div_add_mod k n2

/-- Summing over a raveled grid equals the double sum over its two axes. -/
theorem sum_ravel (n1 n2 : ℕ) (f : Fin (n1 * n2) → α) :
    ∑ k, f k = ∑ i : Fin n1, ∑ j : Fin n2,
      f ⟨(i : ℕ) * n2 + (j : ℕ), linIdx_lt i.isLt j.isLt⟩ := by
  rw [← Equiv.sum_comp (ravelEquiv n1 n2) f, Fintype.sum_prod_type]
  rfl

/-- Pixel access with integer coordinates: the value of the raveled image at
`(i, j)` when the pair is inside the grid, and `0` otherwise. -/
def getPix (nx ny : ℕ) (x : Fin (nx * ny) → α) (i j : ℤ) : α :=
  if h : 0 ≤ i ∧ i < (nx : ℤ) ∧ 0 ≤ j ∧ j < (ny : ℤ) then
    x ⟨i.toNat * ny + j.toNat, linIdx_lt (by omega) (by omega)⟩
  else 0

/-- Indicator of raveled pixel `p` being the in-bounds pixel `(i, j)`. -/
def pixInd (nx ny : ℕ) (i j : ℤ) (p : Fin (nx * ny)) : α :=
  if (0 ≤ i ∧ i < (nx : ℤ) ∧ 0 ≤ j ∧ j < (ny : ℤ)) ∧
      i.toNat * ny + j.toNat = (p : ℕ) then 1 else 0

theorem getPix_eq_sum (nx ny : ℕ) (x : Fin (nx * ny) → α) (i j : ℤ) :
    getPix nx ny x i j = ∑ p, pixInd nx ny i j p * x p := by
  unfold getPix pixInd
  by_cases h : 0 ≤ i ∧ i < (nx : ℤ) ∧ 0 ≤ j ∧ j < (ny : ℤ)
  · rw [dif_pos h]
    rw [Finset.sum_eq_single (⟨i.toNat * ny + j.toNat,
        linIdx_lt (by omega) (by omega)⟩ : Fin (nx * ny))]
    · rw [if_pos ⟨h, rfl⟩, one_mul]
    · intro p _ hp
      rw [if_neg, zero_mul]
      rintro ⟨-, hval⟩
      exact hp (by exact Fin.ext hval.symm)
    · intro hmem
      exact absurd (Finset.mem_univ _) hmem
  · rw [dif_neg h]
    refine (Finset.sum_eq_zero ?_).symm
    intro p _
    rw [if_neg, zero_mul]
    rintro ⟨hvalid, -⟩
    exact h hvalid

/-- Modelled from the spec: the forward pass of the external
`pylops.signalprocessing.Bilinear` operator at one interpolation point
`(p, q)` — the bilinear-weighted combination of the four grid neighbours
`(⌊p⌋, ⌊q⌋)`, `(⌊p⌋, ⌊q⌋+1)`, `(⌊p⌋+1, ⌊q⌋)`, `(⌊p⌋+1, ⌊q⌋+1)`. -/
def bilinSample (nx ny : ℕ) (x : Fin (nx * ny) → α) (p q : α) : α :=
  (1 - (p - ⌊p⌋)) * (1 - (q - ⌊q⌋)) * getPix nx ny x ⌊p⌋ ⌊q⌋ +
  (1 - (p - ⌊p⌋)) * (q - ⌊q⌋) * getPix nx ny x ⌊p⌋ (⌊q⌋ + 1) +
  (p - ⌊p⌋) * (1 - (q - ⌊q⌋)) * getPix nx ny x (⌊p⌋ + 1) ⌊q⌋ +
  (p - ⌊p⌋) * (q - ⌊q⌋) * getPix nx ny x (⌊p⌋ + 1) (⌊q⌋ + 1)

/-- The bilinear weight that interpolation point `(p, q)` puts on the raveled
grid pixel `pix`. -/
def bilinW (nx ny : ℕ) (p q : α) (pix : Fin (nx * ny)) : α :=
  (1 - (p - ⌊p⌋)) * (1 - (q - ⌊q⌋)) * pixInd nx ny ⌊p⌋ ⌊q⌋ pix +
  (1 - (p - ⌊p⌋)) * (q - ⌊q⌋) * pixInd nx ny ⌊p⌋ (⌊q⌋ + 1) pix +
  (p - ⌊p⌋) * (1 - (q - ⌊q⌋)) * pixInd nx ny (⌊p⌋ + 1) ⌊q⌋ pix +
  (p - ⌊p⌋) * (q - ⌊q⌋) * pixInd nx ny (⌊p⌋ + 1) (⌊q⌋ + 1) pix

theorem bilinSample_eq_sum (nx ny : ℕ) (x : Fin (nx * ny) → α) (p q : α) :
    bilinSample nx ny x p q = ∑ pix, bilinW nx ny p q pix * x pix := by
  unfold bilinSample bilinW
  rw [getPix_eq_sum, getPix_eq_sum, getPix_eq_sum, getPix_eq_sum]
  rw [Finset.mul_sum, Finset.mul_sum, Finset.mul_sum, Finset.mul_sum]
  rw [← Finset.sum_add_distrib, ← Finset.sum_add_distrib,
    ← Finset.sum_add_distrib]
  refine Finset.sum_congr rfl ?_
  intro pix _
  ring

/-- Modelled from the spec: the forward of the external pylops `Bilinear`
operator with interpolation points `(P k, Q k)` over an `nx × ny` image
(a gather of bilinear-weighted neighbour values, one output per point). -/
def bilinearFwd (nx ny m : ℕ) (P Q : Fin m → α) (x : Fin (nx * ny) → α) :
    Fin m → α :=
  fun k => bilinSample nx ny x (P k) (Q k)

/-- Modelled from the spec: the adjoint of the external pylops `Bilinear`
operator — a scatter-add of each data sample back onto its four neighbour
pixels with the same bilinear weights. -/
def bilinearAdj (nx ny m : ℕ) (P Q : Fin m → α) (y : Fin m → α) :
    Fin (nx * ny) → α :=
  fun pix => ∑ k, y k * bilinW nx ny (P k) (Q k) pix

/-- The modelled `Bilinear` forward/adjoint pair satisfies the exact
dot-product identity. -/
theorem bilinear_adjoint (nx ny m : ℕ) (P Q : Fin m → α)
    (x : Fin (nx * ny) → α) (y : Fin m → α) :
    dotp (bilinearFwd nx ny m P Q x) y = dotp x (bilinearAdj nx ny m P Q y) := by
  unfold dotp bilinearFwd bilinearAdj
  calc ∑ k, bilinSample nx ny x (P k) (Q k) * y k
      = ∑ k, ∑ pix, x pix * (y k * bilinW nx ny (P k) (Q k) pix) := by
        refine Finset.sum_congr rfl ?_
        intro k _
        rw [bilinSample_eq_sum, Finset.sum_mul]
        refine Finset.sum_congr rfl ?_
        intro pix _
        ring
    _ = ∑ pix, ∑ k, x pix * (y k * bilinW nx ny (P k) (Q k) pix) :=
        Finset.sum_comm
    _ = ∑ pix, x pix * ∑ k, y k * bilinW nx ny (P k) (Q k) pix := by
        refine Finset.sum_congr rfl ?_
        intro pix _
        rw [Finset.mul_sum]

/-- Modelled from the spec: the forward of the external `pylops.Sum` operator
with `dims = (n1, n2)` and `dir = 0` — summation over the first axis of the
raveled `n1 × n2` array. -/
def sumOpFwd (n1 n2 : ℕ) (x : Fin (n1 * n2) → α) : Fin n2 → α :=
  fun j => ∑ i : Fin n1, x ⟨(i : ℕ) * n2 + (j : ℕ), linIdx_lt i.isLt j.isLt⟩

/-- Modelled from the spec: the adjoint of the external `pylops.Sum` operator
with `dir = 0` — broadcast of each column value back over the first axis. -/
def sumOpAdj (n1 n2 : ℕ) (y : Fin n2 → α) : Fin (n1 * n2) → α :=
  fun p => y ⟨(p : ℕ) % n2, mod_lt_of_lt_mul p.isLt⟩

/-- The modelled `Sum` forward/adjoint pair satisfies the exact dot-product
identity. -/
theorem sumOp_adjoint (n1 n2 : ℕ) (x : Fin (n1 * n2) → α) (y : Fin n2 → α) :
    dotp (sumOpFwd n1 n2 x) y = dotp x (sumOpAdj n1 n2 y) := by
  unfold dotp sumOpFwd sumOpAdj
  calc ∑ j : Fin n2,
        (∑ i : Fin n1, x ⟨(i : ℕ) * n2 + (j : ℕ), linIdx_lt i.isLt j.isLt⟩) *
          y j
      = ∑ i : Fin n1, ∑ j : Fin n2,
          x ⟨(i : ℕ) * n2 + (j : ℕ), linIdx_lt i.isLt j.isLt⟩ *
            y ⟨((i : ℕ) * n2 + (j : ℕ)) % n2,
              mod_lt_of_lt_mul (linIdx_lt i.isLt j.isLt)⟩ := by
        rw [Finset.sum_comm]
        refine Finset.sum_congr rfl ?_
        intro j _
        rw [Finset.sum_mul]
        refine Finset.sum_congr rfl ?_
        intro i _
        have hj2 : (⟨((i : ℕ) * n2 + (j : ℕ)) % n2,
            mod_lt_of_lt_mul (linIdx_lt i.isLt j.isLt)⟩ : Fin n2) = j := by
          apply Fin.ext
          show ((i : ℕ) * n2 + (j : ℕ)) % n2 = (j : ℕ)
          rw [Nat.mul_comm, Nat.mul_add_mod]
          exact Nat.mod_eq_of_lt j.isLt
        rw [hj2]
    _ = ∑ p, x p * y ⟨(p : ℕ) % n2, mod_lt_of_lt_mul p.isLt⟩ :=
        (sum_ravel n1 n2
          (fun p => x p * y ⟨(p : ℕ) % n2, mod_lt_of_lt_mul p.isLt⟩)).symm

/-- Modelled from the spec: the forward of the external `pylops.VStack`
operator on `N` stacked operators that each produce `m` outputs — block `t`
of the output is the output of operator `t`. -/
def vstackFwd (N m n : ℕ) (ops : Fin N → (Fin n → α) → Fin m → α)
    (x : Fin n → α) : Fin (N * m) → α :=
  fun k => ops ⟨(k : ℕ) / m, div_lt_of_lt_mul k.isLt⟩ x
    ⟨(k : ℕ) % m, mod_lt_of_lt_mul k.isLt⟩

/-- Modelled from the spec: the adjoint of the external `pylops.VStack`
operator — the sum over blocks of each stacked operator's adjoint applied to
its own block of the data. -/
def vstackAdj (N m n : ℕ) (adjs : Fin N → (Fin m → α) → Fin n → α)
    (y : Fin (N * m) → α) : Fin n → α :=
  fun p => ∑ t : Fin N,
    adjs t (fun j => y ⟨(t : ℕ) * m + (j : ℕ), linIdx_lt t.isLt j.isLt⟩) p

/-- If every stacked pair is an exact adjoint pair, the modelled `VStack`
forward/adjoint pair is one as well. -/
theorem vstack_adjoint (N m n : ℕ) (ops : Fin N → (Fin n → α) → Fin m → α)
    (adjs : Fin N → (Fin m → α) → Fin n → α)
    (hadj : ∀ t x y, dotp (ops t x) y = dotp x (adjs t y))
    (x : Fin n → α) (y : Fin (N * m) → α) :
    dotp (vstackFwd N m n ops x) y = dotp x (vstackAdj N m n adjs y) := by
  unfold dotp vstackFwd vstackAdj
  rw [sum_ravel N m]
  have hblock : ∀ t : Fin N, ∀ j : Fin m,
      (⟨((t : ℕ) * m + (j : ℕ)) / m, div_lt_of_lt_mul
        (linIdx_lt t.isLt j.isLt)⟩ : Fin N) = t ∧
      (⟨((t : ℕ) * m + (j : ℕ)) % m, mod_lt_of_lt_mul
        (linIdx_lt t.isLt j.isLt)⟩ : Fin m) = j := by
    intro t j
    constructor
    · apply Fin.ext
      show ((t : ℕ) * m + (j : ℕ)) / m = (t : ℕ)
      rw [Nat.mul_comm, Nat.mul_add_div j.pos, Nat.div_eq_of_lt j.isLt,
        Nat.add_zero]
    · apply Fin.ext
      show ((t : ℕ) * m + (j : ℕ)) % m = (j : ℕ)
      rw [Nat.mul_comm, Nat.mul_add_mod]
      exact Nat.mod_eq_of_lt j.isLt
  calc ∑ t : Fin N, ∑ j : Fin m,
        (fun k : Fin (N * m) => ops ⟨(k : ℕ) / m, div_lt_of_lt_mul k.isLt⟩ x
          ⟨(k : ℕ) % m, mod_lt_of_lt_mul k.isLt⟩ *
          y k) ⟨(t : ℕ) * m + (j : ℕ), linIdx_lt t.isLt j.isLt⟩
      = ∑ t : Fin N, dotp (ops t x)
          (fun j => y ⟨(t : ℕ) * m + (j : ℕ), linIdx_lt t.isLt j.isLt⟩) := by
        refine Finset.sum_congr rfl ?_
        intro t _
        refine Finset.sum_congr rfl ?_
        intro j _
        show ops ⟨((t : ℕ) * m + (j : ℕ)) / m, _⟩ x
            ⟨((t : ℕ) * m + (j : ℕ)) % m, _⟩ *
            y ⟨(t : ℕ) * m + (j : ℕ), linIdx_lt t.isLt j.isLt⟩ =
          ops t x j * y ⟨(t : ℕ) * m + (j : ℕ), linIdx_lt t.isLt j.isLt⟩
        rw [(hblock t j).1, (hblock t j).2]
    _ = ∑ t : Fin N, dotp x (adjs t
          (fun j => y ⟨(t : ℕ) * m + (j : ℕ), linIdx_lt t.isLt j.isLt⟩)) := by
        refine Finset.sum_congr rfl ?_
        intro t _
        exact hadj t x _
    _ = ∑ p, x p * ∑ t : Fin N, adjs t
          (fun j => y ⟨(t : ℕ) * m + (j : ℕ), linIdx_lt t.isLt j.isLt⟩) p := by
        unfold dotp
        rw [Finset.sum_comm]
        refine Finset.sum_congr rfl ?_
        intro p _
        rw [Finset.mul_sum]

/-- The grid x-axis of `RadonRotate`: `np.arange(nx - inner) - nx//2 + inner//2`
(`//` is floor division on naturals). -/
def gridX (nx inner : ℕ) (i : ℕ) : α :=
  (i : α) - ((nx / 2 : ℕ) : α) + ((inner / 2 : ℕ) : α)

/-- The grid y-axis of `RadonRotate`: `np.arange(ny - inner) - ny//2 + inner//2`. -/
def gridY (ny inner : ℕ) (j : ℕ) : α :=
  (j : α) - ((ny / 2 : ℕ) : α) + ((inner / 2 : ℕ) : α)

/-- First rotated coordinate of `RadonRotate` at raveled sample `k` of the
`(nx-inner) × (ny-inner)` meshgrid (`indexing='ij'`, C-order ravel):
`cos θ · X - sin θ · Y`, recentered by `x0 = nx//2`. -/
def rotP (nx ny inner : ℕ) (c s : α)
    (k : Fin ((nx - inner) * (ny - inner))) : α :=
  c * gridX nx inner ((k : ℕ) / (ny - inner)) -
    s * gridY ny inner ((k : ℕ) % (ny - inner)) + ((nx / 2 : ℕ) : α)

/-- Second rotated coordinate of `RadonRotate` at raveled sample `k`:
`sin θ · X + cos θ · Y`, recentered by `y0 = ny//2`. -/
def rotQ (nx ny inner : ℕ) (c s : α)
    (k : Fin ((nx - inner) * (ny - inner))) : α :=
  s * gridX nx inner ((k : ℕ) / (ny - inner)) +
    c * gridY ny inner ((k : ℕ) % (ny - inner)) + ((ny / 2 : ℕ) : α)

/-- The per-angle operator appended inside `RadonRotate`'s loop:
`pylops.Sum(dims=(nx-inner, ny-inner), dir=0) * pylops.signalprocessing.Bilinear(XYrot, dims=(nx, ny))`,
with the rotation matrix entries `(c, s) = (cos θ, sin θ)` as parameters. -/
def rotOpFwd (nx ny inner : ℕ) (c s : α) (x : Fin (nx * ny) → α) :
    Fin (ny - inner) → α :=
  sumOpFwd (nx - inner) (ny - inner)
    (bilinearFwd nx ny ((nx - inner) * (ny - inner))
      (rotP nx ny inner c s) (rotQ nx ny inner c s) x)

/-- The adjoint of the per-angle operator: the composed adjoints in reverse
order (Bilinear scatter after Sum broadcast), as the external library builds
it for a product of operators. -/
def rotOpAdj (nx ny inner : ℕ) (c s : α) (y : Fin (ny - inner) → α) :
    Fin (nx * ny) → α :=
  bilinearAdj nx ny ((nx - inner) * (ny - inner))
    (rotP nx ny inner c s) (rotQ nx ny inner c s)
    (sumOpAdj (nx - inner) (ny - inner) y)

/-- The per-angle forward/adjoint pair satisfies the exact dot-product
identity. -/
theorem rotOp_adjoint (nx ny inner : ℕ) (c s : α) (x : Fin (nx * ny) → α)
    (y : Fin (ny - inner) → α) :
    dotp (rotOpFwd nx ny inner c s x) y = dotp x (rotOpAdj nx ny inner c s y) := by
  unfold rotOpFwd rotOpAdj
  rw [sumOp_adjoint, bilinear_adjoint]

end Core

/-- `np.deg2rad`: conversion of an angle from degrees to radians. -/
noncomputable def deg2rad (θ : ℝ) : ℝ := θ * (Real.pi / 180)

/-- The list of per-angle operators built by `RadonRotate`'s loop, in the
order of the input angle list: the angles are first converted to radians
(`thetas = np.deg2rad(thetas)`), and each loop iteration appends the
Sum-after-Bilinear operator for its angle. -/
noncomputable def RadonRotateOps (nx ny inner : ℕ) (thetas : List ℝ) :
    List ((Fin (nx * ny) → ℝ) → Fin (ny - inner) → ℝ) :=
  (thetas.map deg2rad).map (fun θ x =>
    sumOpFwd (nx - inner) (ny - inner)
      (bilinearFwd nx ny ((nx - inner) * (ny - inner))
        (rotP nx ny inner (Real.cos θ) (Real.sin θ))
        (rotQ nx ny inner (Real.cos θ) (Real.sin θ)) x))

/-- `RadonRotate(dims, inner, thetas)` of the notebook: the vertical stack of
the per-angle Sum-after-Bilinear operators (forward action). -/
noncomputable def RadonRotateFwd (nx ny inner : ℕ) (thetas : List ℝ)
    (x : Fin (nx * ny) → ℝ) : Fin (thetas.length * (ny - inner)) → ℝ :=
  vstackFwd thetas.length (ny - inner) (nx * ny)
    (fun t => rotOpFwd nx ny inner (Real.cos (deg2rad (thetas.get t)))
      (Real.sin (deg2rad (thetas.get t)))) x

/-- The adjoint of `RadonRotate`'s stacked operator as the external library
composes it: the sum over angles of each per-angle adjoint applied to its own
block of the data. -/
noncomputable def RadonRotateAdj (nx ny inner : ℕ) (thetas : List ℝ)
    (y : Fin (thetas.length * (ny - inner)) → ℝ) : Fin (nx * ny) → ℝ :=
  vstackAdj thetas.length (ny - inner) (nx * ny)
    (fun t => rotOpAdj nx ny inner (Real.cos (deg2rad (thetas.get t)))
      (Real.sin (deg2rad (thetas.get t)))) y

/-- C1: the operator returned by `RadonRotate` (vertical stack of per-angle
Sum-after-Bilinear operators) is a true forward/adjoint pair — for every
input image vector `x` of length `nx*ny` and every data vector `y` of length
`len(thetas)*(ny-inner)`, the dot-product identity `⟨Px, y⟩ = ⟨x, Pᵀy⟩` holds
exactly in exact arithmetic. -/
theorem radonRotate_dotproduct_test (nx ny inner : ℕ) (thetas : List ℝ)
    (x : Fin (nx * ny) → ℝ) (y : Fin (thetas.length * (ny - inner)) → ℝ) :
    dotp (RadonRotateFwd nx ny inner thetas x) y =
      dotp x (RadonRotateAdj nx ny inner thetas y) := by
  unfold RadonRotateFwd RadonRotateAdj
  refine vstack_adjoint thetas.length (ny - inner) (nx * ny)
    (fun t => rotOpFwd nx ny inner (Real.cos (deg2rad (thetas.get t)))
      (Real.sin (deg2rad (thetas.get t))))
    (fun t => rotOpAdj nx ny inner (Real.cos (deg2rad (thetas.get t)))
      (Real.sin (deg2rad (thetas.get t)))) ?_ x y
  intro t u v
  exact rotOp_adjoint nx ny inner _ _ u v

/-- C3: `RadonRotate` builds exactly one operator per input angle
(`(RadonRotateOps …).length = thetas.length`), the `t`-th built operator is
the Sum-after-Bilinear composition at the `t`-th angle converted from degrees
to radians (rotation by the standard `2×2` matrix, recentered by
`(nx//2, ny//2)`, all inside `rotP`/`rotQ`), and the returned vertical stack
places the `t`-th operator's output in the `t`-th block, in the order of the
input angle list. -/
theorem radonRotate_structure (nx ny inner : ℕ) (thetas : List ℝ) :
    (RadonRotateOps nx ny inner thetas).length = thetas.length ∧
    (∀ t : Fin thetas.length, ∀ x : Fin (nx * ny) → ℝ,
      (RadonRotateOps nx ny inner thetas).get
          ⟨(t : ℕ), by simp [RadonRotateOps, t.isLt]⟩ x =
        sumOpFwd (nx - inner) (ny - inner)
          (bilinearFwd nx ny ((nx - inner) * (ny - inner))
            (rotP nx ny inner (Real.cos (deg2rad (thetas.get t)))
              (Real.sin (deg2rad (thetas.get t))))
            (rotQ nx ny inner (Real.cos (deg2rad (thetas.get t)))
              (Real.sin (deg2rad (thetas.get t)))) x)) ∧
    (∀ t : Fin thetas.length, ∀ j : Fin (ny - inner), ∀ x : Fin (nx * ny) → ℝ,
      RadonRotateFwd nx ny inner thetas x
          ⟨(t : ℕ) * (ny - inner) + (j : ℕ), linIdx_lt t.isLt j.isLt⟩ =
        (RadonRotateOps nx ny inner thetas).get
          ⟨(t : ℕ), by simp [RadonRotateOps, t.isLt]⟩ x j) := by
  refine ⟨by simp [RadonRotateOps], ?_, ?_⟩
  · intro t x
    simp only [RadonRotateOps, List.get_eq_getElem, List.getElem_map]
  · intro t j x
    simp only [RadonRotateOps, List.get_eq_getElem, List.getElem_map]
    show rotOpFwd nx ny inner
        (Real.cos (deg2rad (thetas.get ⟨((t : ℕ) * (ny - inner) + (j : ℕ)) /
          (ny - inner), _⟩)))
        (Real.sin (deg2rad (thetas.get ⟨((t : ℕ) * (ny - inner) + (j : ℕ)) /
          (ny - inner), _⟩))) x
        ⟨((t : ℕ) * (ny - inner) + (j : ℕ)) % (ny - inner), _⟩ = _
    have hdiv : ((t : ℕ) * (ny - inner) + (j : ℕ)) / (ny - inner) = (t : ℕ) := by
      rw [Nat.mul_comm, Nat.mul_add_div j.pos, Nat.div_eq_of_lt j.isLt,
        Nat.add_zero]
    have hmod : ((t : ℕ) * (ny - inner) + (j : ℕ)) % (ny - inner) = (j : ℕ) := by
      rw [Nat.mul_comm, Nat.mul_add_mod]
      exact Nat.mod_eq_of_lt j.isLt
    have h1 : (⟨((t : ℕ) * (ny - inner) + (j : ℕ)) / (ny - inner),
        div_lt_of_lt_mul (linIdx_lt t.isLt j.isLt)⟩ : Fin thetas.length) = t :=
      Fin.ext hdiv
    have h2 : (⟨((t : ℕ) * (ny - inner) + (j : ℕ)) % (ny - inner),
        mod_lt_of_lt_mul (linIdx_lt t.isLt j.isLt)⟩ : Fin (ny - inner)) = j :=
      Fin.ext hmod
    rw [h1, h2]
    rfl

/-- Application of the stacked operator to a raveled image given as a plain
list, `Radop * image.ravel()`: entries of the image list beyond the operator's
`nx*ny`-point domain are never read. -/
noncomputable def radonApplyList (nx ny inner : ℕ) (thetas : List ℝ)
    (img : List ℝ) : List ℝ :=
  List.ofFn (RadonRotateFwd nx ny inner thetas (fun i => img.getD (i : ℕ) 0))

/-- `np.reshape` of a raveled vector to a `rows × cols` array: defined exactly
when the vector has `rows * cols` entries. -/
def reshape2 (rows cols : ℕ) (v : List ℝ) : Option (List (List ℝ)) :=
  if v.length = rows * cols then
    some (List.ofFn (fun r : Fin rows => List.ofFn
      (fun c : Fin cols => v.getD ((r : ℕ) * cols + (c : ℕ)) 0)))
  else none

/-- C4: array-shape consistency — the operator returned by `RadonRotate` maps
an image vector over the `nx*ny`-point grid (the domain type of
`RadonRotateFwd`) to an output of length `thetas.length * (ny - inner)`, so
`projection1 = (Radop * image.ravel()).reshape(len(thetas), ny - inner)`
succeeds. -/
theorem radonRotate_shape (nx ny inner : ℕ) (thetas : List ℝ) (img : List ℝ) :
    (radonApplyList nx ny inner thetas img).length =
      thetas.length * (ny - inner) ∧
    (reshape2 thetas.length (ny - inner)
      (radonApplyList nx ny inner thetas img)).isSome = true := by
  constructor
  · simp [radonApplyList]
  · simp [reshape2, radonApplyList]


/-!  The reconstruction error metric (cells 12, 37, 39).  The padded phantom
is a `300 × 300` array and `pad = 50`, so the slice `[pad//2:-pad//2]` keeps
indices `25 … 274` of each axis — a `250 × 250` interior. -/

/-- The interior slice `a[pad//2:-pad//2, pad//2:-pad//2]` of a `300 × 300`
array with `pad = 50`. -/
def interiorSlice (a : Fin 300 → Fin 300 → ℝ) (i j : Fin 250) : ℝ :=
  a ⟨(i : ℕ) + 25, by omega⟩ ⟨(j : ℕ) + 25, by omega⟩

/-- `np.linalg.norm` on a 2-D array: the Frobenius (Euclidean) norm. -/
noncomputable def frobNorm (a : Fin 250 → Fin 250 → ℝ) : ℝ :=
  Real.sqrt (∑ i, ∑ j, a i j ^ 2)

/-- The `mse_fbp` line of cell 12:
`np.linalg.norm(image_fbp[pad//2:-pad//2, pad//2:-pad//2] - image[pad//2:-pad//2, pad//2:-pad//2])`,
as a function of the FBP reconstruction and the original image. -/
noncomputable def mse_fbp (image_fbp image : Fin 300 → Fin 300 → ℝ) : ℝ :=
  frobNorm (fun i j => interiorSlice image_fbp i j - interiorSlice image i j)

/-- The `mse_l2` line of cell 37, as a function of the L2-regularized
reconstruction and the original image. -/
noncomputable def mse_l2 (image_l2 image : Fin 300 → Fin 300 → ℝ) : ℝ :=
  frobNorm (fun i j => interiorSlice image_l2 i j - interiorSlice image i j)

/-- The `mse_tv` line of cell 39, as a function of the TV-regularized
reconstruction and the original image. -/
noncomputable def mse_tv (image_tv image : Fin 300 → Fin 300 → ℝ) : ℝ :=
  frobNorm (fun i j => interiorSlice image_tv i j - interiorSlice image i j)

/-- A mean of squared differences over the same interior region (what the
label "MSE" would ordinarily denote). -/
noncomputable def meanSquaredError (r o : Fin 300 → Fin 300 → ℝ) : ℝ :=
  (∑ i, ∑ j, (interiorSlice r i j - interiorSlice o i j) ^ 2) / (250 * 250)

/-- C5: the error metric computed for the FBP, L2-regularized and
TV-regularized reconstructions is one and the same function — the Euclidean
(Frobenius) norm of the elementwise difference restricted to the interior
that excludes a `pad//2`-pixel border — and despite its name it is a norm,
not a mean of squared differences. -/
theorem mse_metric_same_norm_not_mean :
    mse_fbp = mse_l2 ∧ mse_l2 = mse_tv ∧
    (∀ r o, mse_fbp r o = Real.sqrt (∑ i, ∑ j,
      (interiorSlice r i j - interiorSlice o i j) ^ 2)) ∧
    (∃ r o, mse_fbp r o ≠ meanSquaredError r o) := by
  refine ⟨rfl, rfl, fun r o => rfl, ?_⟩
  refine ⟨fun _ _ => 1, fun _ _ => 0, ?_⟩
  have h1 : ∀ i j : Fin 250,
      (interiorSlice (fun _ _ => 1) i j -
        interiorSlice (fun _ _ => 0) i j) ^ 2 = (1 : ℝ) := by
    intro i j
    simp [interiorSlice]
  have hsum : (∑ i : Fin 250, ∑ j : Fin 250,
      (interiorSlice (fun _ _ => 1) i j -
        interiorSlice (fun _ _ => 0) i j) ^ 2) = (62500 : ℝ) := by
    calc (∑ i : Fin 250, ∑ j : Fin 250,
          (interiorSlice (fun _ _ => 1) i j -
            interiorSlice (fun _ _ => 0) i j) ^ 2)
        = ∑ _i : Fin 250, ∑ _j : Fin 250, (1 : ℝ) :=
          Finset.sum_congr rfl fun i _ => Finset.sum_congr rfl fun j _ => h1 i j
      _ = (62500 : ℝ) := by
          rw [Finset.sum_const, Finset.sum_const]
          simp only [Finset.card_univ, Fintype.card_fin, nsmul_eq_mul]
          norm_num
  have hnorm : mse_fbp (fun _ _ => 1) (fun _ _ => 0) = 250 := by
    show frobNorm _ = 250
    unfold frobNorm
    rw [hsum]
    rw [show (62500 : ℝ) = 250 ^ 2 by norm_num, Real.sqrt_sq (by norm_num)]
  have hmean : meanSquaredError (fun _ _ => 1) (fun _ _ => 0) = 1 := by
    unfold meanSquaredError
    rw [hsum]
    norm_num
  rw [hnorm, hmean]
  norm_num

/-!  Cell 16: the `FunctionOperator` demonstration.  The second line rebinds
`projection1` to the scikit-image projection (its reshape to its own shape is
the identity), discarding the result of `Fop * image.ravel()`. -/

/-- `a.reshape(a.shape)`: reshaping an array to its own shape. -/
def reshapeSameShape {P : Type} (a : P) : P := a

/-- Cell 16 of the notebook, with the wrapped forward (`Fop * ·`), the wrapped
adjoint (`Fop.H * ·`), the image and the scikit-image projection as inputs;
returns the pair `(projection1, image_adj)`. -/
def cell16 {I P : Type} (fopFwd : I → P) (fopAdjH : P → I)
    (image : I) (projection : P) : P × I :=
  let projection1 := fopFwd image
  let projection1 := reshapeSameShape projection
  let image_adj := fopAdjH projection1
  (projection1, image_adj)

/-- C9: in cell 16, `image_adj` equals the wrapped adjoint applied to the
scikit-image projection — the forward output `Fop * image.ravel()` computed on
the previous line is discarded by the rebinding
`projection1 = projection.reshape(projection.shape)` — and there are
instantiations where that differs from the adjoint of `Fop`'s own forward
output. -/
theorem cell16_adjoint_input_rebinding :
    (∀ (I P : Type) (fopFwd : I → P) (fopAdjH : P → I) (image : I)
      (projection : P),
      (cell16 fopFwd fopAdjH image projection).2 = fopAdjH projection) ∧
    (∃ (fopFwd : ℚ → ℚ) (fopAdjH : ℚ → ℚ) (image : ℚ) (projection : ℚ),
      (cell16 fopFwd fopAdjH image projection).2 ≠ fopAdjH (fopFwd image)) := by
  constructor
  · intro I P fopFwd fopAdjH image projection
    rfl
  · refine ⟨fun _ => 1, fun p => p, 0, 0, ?_⟩
    show (0 : ℚ) ≠ 1
    decide

/-!  Frame behaviour of the reconstruction pipeline (cells 33, 37, 39): the
original image and the projections are only read; each method writes its
result into a fresh binding. -/

/-- The notebook bindings touched by the forward-projection and inversion
cells. -/
structure NotebookState (Img Proj : Type) where
  image : Img
  projection1 : Proj
  image_l2 : Img
  image_tv : Img

/-- Cell 33: `projection1 = Radop * image.ravel()` (then reshaped). -/
def forwardStep {Img Proj : Type} (radop : Img → Proj)
    (s : NotebookState Img Proj) : NotebookState Img Proj :=
  { s with projection1 := radop s.image }

/-- Cell 37: `image_l2 = RegularizedInversion(Radop, [D2op], projection1.ravel(), …)`
(then `np.real`/reshape), with the external solver as a parameter. -/
def l2Step {Img Proj : Type} (solveL2 : Proj → Img)
    (s : NotebookState Img Proj) : NotebookState Img Proj :=
  { s with image_l2 := solveL2 s.projection1 }

/-- Cell 39: `image_tv, niter = SplitBregman(Radop, Dop, projection1.ravel(), …)`
(then `np.real`/reshape), with the external solver as a parameter. -/
def tvStep {Img Proj : Type} (solveTV : Proj → Img)
    (s : NotebookState Img Proj) : NotebookState Img Proj :=
  { s with image_tv := solveTV s.projection1 }

/-- C7: the original image is never mutated by the forward projection, the
L2-regularized inversion or the Split-Bregman TV inversion, and the
projection array the solvers read is left unchanged by them; each method
writes only its own fresh binding. -/
theorem pipeline_preserves_image (Img Proj : Type) (radop : Img → Proj)
    (solveL2 : Proj → Img) (solveTV : Proj → Img)
    (s : NotebookState Img Proj) :
    (tvStep solveTV (l2Step solveL2 (forwardStep radop s))).image = s.image ∧
    (tvStep solveTV (l2Step solveL2 (forwardStep radop s))).projection1 =
      radop s.image ∧
    (tvStep solveTV (l2Step solveL2 (forwardStep radop s))).image_l2 =
      solveL2 (radop s.image) ∧
    (tvStep solveTV (l2Step solveL2 (forwardStep radop s))).image_tv =
      solveTV (radop s.image) :=
  ⟨rfl, rfl, rfl, rfl⟩

/-!  In-bounds safety of the rotated grid for the notebook's parameters:
after padding the phantom is `300 × 300` (`nx = ny = 300`) and `inner = 100`,
so the inner grid axes run over `np.arange(200) - 150 + 50 = -100 … 99` and a
rotation preserves the distance to the centre. -/

/-- C8: for the notebook's parameters (`nx = ny = 300`, `inner = 100`) and
every rotation angle, every rotated coordinate produced by `RadonRotate` lies
strictly inside `[0, 299]`, and the four neighbour pixels referenced by
bilinear interpolation (`⌊·⌋` and `⌊·⌋ + 1` on each axis) are all inside the
`300 × 300` grid, so `getPix`'s out-of-bounds branch is unreachable. -/
theorem radonRotate_inbounds (θ : ℝ) (k : Fin ((300 - 100) * (300 - 100))) :
    (0 : ℝ) < rotP 300 300 100 (Real.cos θ) (Real.sin θ) k ∧
    rotP 300 300 100 (Real.cos θ) (Real.sin θ) k < 299 ∧
    (0 : ℝ) < rotQ 300 300 100 (Real.cos θ) (Real.sin θ) k ∧
    rotQ 300 300 100 (Real.cos θ) (Real.sin θ) k < 299 ∧
    0 ≤ ⌊rotP 300 300 100 (Real.cos θ) (Real.sin θ) k⌋ ∧
    ⌊rotP 300 300 100 (Real.cos θ) (Real.sin θ) k⌋ + 1 < 300 ∧
    0 ≤ ⌊rotQ 300 300 100 (Real.cos θ) (Real.sin θ) k⌋ ∧
    ⌊rotQ 300 300 100 (Real.cos θ) (Real.sin θ) k⌋ + 1 < 300 := by
  have hk : (k : ℕ) < 40000 := by
    have := k.isLt
    omega
  have hi : (k : ℕ) / (300 - 100) < 200 := by omega
  have hj : (k : ℕ) % (300 - 100) < 200 := by omega
  set c := Real.cos θ with hc
  set s := Real.sin θ with hs
  have hcs : c ^ 2 + s ^ 2 = 1 := Real.cos_sq_add_sin_sq θ
  set gx : ℝ := gridX 300 100 ((k : ℕ) / (300 - 100)) with hgx
  set gy : ℝ := gridY 300 100 ((k : ℕ) % (300 - 100)) with hgy
  have hgx1 : (-100 : ℝ) ≤ gx := by
    rw [hgx]
    unfold gridX
    have h0 : (0 : ℝ) ≤ (((k : ℕ) / (300 - 100) : ℕ) : ℝ) := Nat.cast_nonneg _
    norm_num
    linarith
  have hgx2 : gx ≤ 99 := by
    rw [hgx]
    unfold gridX
    have h0 : (((k : ℕ) / (300 - 100) : ℕ) : ℝ) ≤ 199 := by
      exact_mod_cast Nat.le_of_lt_succ hi
    norm_num
    linarith
  have hgy1 : (-100 : ℝ) ≤ gy := by
    rw [hgy]
    unfold gridY
    have h0 : (0 : ℝ) ≤ (((k : ℕ) % (300 - 100) : ℕ) : ℝ) := Nat.cast_nonneg _
    norm_num
    linarith
  have hgy2 : gy ≤ 99 := by
    rw [hgy]
    unfold gridY
    have h0 : (((k : ℕ) % (300 - 100) : ℕ) : ℝ) ≤ 199 := by
      exact_mod_cast Nat.le_of_lt_succ hj
    norm_num
    linarith
  have hx2 : gx ^ 2 ≤ 10000 := by nlinarith
  have hy2 : gy ^ 2 ≤ 10000 := by nlinarith
  have hpyth : (c * gx - s * gy) ^ 2 + (s * gx + c * gy) ^ 2 =
      gx ^ 2 + gy ^ 2 := by
    linear_combination (gx ^ 2 + gy ^ 2) * hcs
  have hu2 : (c * gx - s * gy) ^ 2 ≤ 20000 := by
    nlinarith [sq_nonneg (s * gx + c * gy)]
  have hv2 : (s * gx + c * gy) ^ 2 ≤ 20000 := by
    nlinarith [sq_nonneg (c * gx - s * gy)]
  have hu1 : (-149 : ℝ) < c * gx - s * gy := by
    nlinarith [sq_nonneg (c * gx - s * gy + 149)]
  have hu3 : c * gx - s * gy < 149 := by
    nlinarith [sq_nonneg (c * gx - s * gy - 149)]
  have hv1 : (-149 : ℝ) < s * gx + c * gy := by
    nlinarith [sq_nonneg (s * gx + c * gy + 149)]
  have hv3 : s * gx + c * gy < 149 := by
    nlinarith [sq_nonneg (s * gx + c * gy - 149)]
  have hP : rotP 300 300 100 c s k = c * gx - s * gy + 150 := by
    unfold rotP
    rw [← hgx, ← hgy]
    norm_num
  have hQ : rotQ 300 300 100 c s k = s * gx + c * gy + 150 := by
    unfold rotQ
    rw [← hgx, ← hgy]
    norm_num
  have hP1 : (0 : ℝ) < rotP 300 300 100 c s k := by rw [hP]; linarith
  have hP2 : rotP 300 300 100 c s k < 299 := by rw [hP]; linarith
  have hQ1 : (0 : ℝ) < rotQ 300 300 100 c s k := by rw [hQ]; linarith
  have hQ2 : rotQ 300 300 100 c s k < 299 := by rw [hQ]; linarith
  refine ⟨hP1, hP2, hQ1, hQ2, ?_, ?_, ?_, ?_⟩
  · exact Int.floor_nonneg.mpr hP1.le
  · have : ⌊rotP 300 300 100 c s k⌋ < (299 : ℤ) := by
      rw [Int.floor_lt]
      exact_mod_cast hP2
    omega
  · exact Int.floor_nonneg.mpr hQ1.le
  · have : ⌊rotQ 300 300 100 c s k⌋ < (299 : ℤ) := by
      rw [Int.floor_lt]
      exact_mod_cast hQ2
    omega

/-!  Error behaviour (C6, C10).  The notebook's functions contain no `raise`,
no `try/except` and no input check of their own; the only failures are those
of the external library calls, which we model as `Except`-valued steps and
chain exactly as the source does. -/

/-- Modelled from the spec: construction of the external `pylops.VStack` in
the error monad — on an empty operator list the external library itself
raises while reading the first operator of the list; otherwise it returns the
stacked operator. -/
def VStackE (N m n : ℕ) (ops : Fin N → (Fin n → ℝ) → Fin m → ℝ) :
    Except String ((Fin n → ℝ) → Fin (N * m) → ℝ) :=
  if N = 0 then Except.error "IndexError: list index out of range"
  else Except.ok (vstackFwd N m n ops)

/-- `RadonRotate` in the error monad: the body builds the per-angle operators
and hands them to the external `VStack` with no check, recovery or retry of
its own, so the only failure is the external one on an empty operator
list. -/
noncomputable def RadonRotateE (nx ny inner : ℕ) (thetas : List ℝ) :
    Except String
      ((Fin (nx * ny) → ℝ) → Fin (thetas.length * (ny - inner)) → ℝ) :=
  VStackE thetas.length (ny - inner) (nx * ny)
    (fun t => rotOpFwd nx ny inner (Real.cos (deg2rad (thetas.get t)))
      (Real.sin (deg2rad (thetas.get t))))

/-- `radon_morereg` in the error monad: the external calls (`DWT2D`
construction, `SplitBregman` solve) are parameters, the pure postprocessing
(`np.real`, reshape, norm) is a function, and the body only chains them,
propagating any external error unchanged. -/
def radon_moreregE {W S T : Type} (dwt2d : Except String W)
    (splitBregman : W → Except String S) (post : S → T) : Except String T :=
  match dwt2d with
  | Except.error e => Except.error e
  | Except.ok wop =>
    match splitBregman wop with
    | Except.error e => Except.error e
    | Except.ok sol => Except.ok (post sol)

/-- `radon_noise` in the error monad: one external call (`np.random.normal`)
followed by pure additions of the noise to the two projection arrays. -/
def radon_noiseE {N P : Type} (randomNormal : Except String N)
    (addToProjection : N → P) (addToProjection1 : N → P) :
    Except String (P × P) :=
  match randomNormal with
  | Except.error e => Except.error e
  | Except.ok n => Except.ok (addToProjection n, addToProjection1 n)

/-- `radon_kk` in the error monad: the chain of external calls (`FFT2D`
construction, `Restriction` construction, `RegularizedInversion` solve,
`SplitBregman` solve), with no validation or recovery in the body,
propagating any external error unchanged. -/
def radon_kkE {F R A B : Type} (fft2d : Except String F)
    (restriction : Except String R) (regInv : F → R → Except String A)
    (splitBreg : F → R → Except String B) : Except String (A × B) :=
  match fft2d with
  | Except.error e => Except.error e
  | Except.ok fop =>
    match restriction with
    | Except.error e => Except.error e
    | Except.ok rop =>
      match regInv fop rop with
      | Except.error e => Except.error e
      | Except.ok il2 =>
        match splitBreg fop rop with
        | Except.error e => Except.error e
        | Except.ok itv => Except.ok (il2, itv)

/-- C6: none of the repository's functions performs validation, recovery or
retry of its own — `RadonRotateE` fails exactly when the external `VStack`
does (empty angle list, the external message unchanged); `radon_moreregE`,
`radon_noiseE` and `radon_kkE` succeed whenever every external call succeeds,
and any error they return is the error of one of their external calls,
propagated unchanged. -/
theorem notebook_error_propagation :
    (∀ (nx ny inner : ℕ) (thetas : List ℝ) (e : String),
      RadonRotateE nx ny inner thetas = Except.error e ↔
        thetas.length = 0 ∧ e = "IndexError: list index out of range") ∧
    (∀ (W S T : Type) (dwt2d : Except String W)
      (splitBregman : W → Except String S) (post : S → T) (e : String),
      radon_moreregE dwt2d splitBregman post = Except.error e →
        dwt2d = Except.error e ∨
        ∃ w, dwt2d = Except.ok w ∧ splitBregman w = Except.error e) ∧
    (∀ (W S T : Type) (dwt2d : Except String W)
      (splitBregman : W → Except String S) (post : S → T) (w : W) (s : S),
      dwt2d = Except.ok w → splitBregman w = Except.ok s →
        radon_moreregE dwt2d splitBregman post = Except.ok (post s)) ∧
    (∀ (N P : Type) (randomNormal : Except String N)
      (a1 : N → P) (a2 : N → P),
      (∀ e, radon_noiseE randomNormal a1 a2 = Except.error e ↔
        randomNormal = Except.error e) ∧
      (∀ n, randomNormal = Except.ok n →
        radon_noiseE randomNormal a1 a2 = Except.ok (a1 n, a2 n))) ∧
    (∀ (F R A B : Type) (fft2d : Except String F)
      (restriction : Except String R) (regInv : F → R → Except String A)
      (splitBreg : F → R → Except String B) (e : String),
      radon_kkE fft2d restriction regInv splitBreg = Except.error e →
        fft2d = Except.error e ∨
        ∃ f, fft2d = Except.ok f ∧
          (restriction = Except.error e ∨
          ∃ r, restriction = Except.ok r ∧
            (regInv f r = Except.error e ∨
            ∃ a, regInv f r = Except.ok a ∧
              splitBreg f r = Except.error e))) := by
  refine ⟨?_, ?_, ?_, ?_, ?_⟩
  · intro nx ny inner thetas e
    unfold RadonRotateE VStackE
    by_cases h : thetas.length = 0
    · rw [if_pos h]
      constructor
      · intro he
        exact ⟨h, ((Except.error.injEq _ _).mp he.symm)⟩
      · rintro ⟨-, rfl⟩
        rfl
    · rw [if_neg h]
      constructor
      · intro he
        exact absurd he (by simp)
      · rintro ⟨h0, -⟩
        exact absurd h0 h
  · intro W S T dwt2d splitBregman post e he
    cases hd : dwt2d with
    | error e1 =>
        left
        rw [hd] at he
        simp [radon_moreregE] at he
        rw [he]
    | ok w =>
        right
        refine ⟨w, rfl, ?_⟩
        rw [hd] at he
        simp only [radon_moreregE] at he
        cases hs : splitBregman w with
        | error e2 =>
            rw [hs] at he
            simp at he
            rw [he]
        | ok s =>
            rw [hs] at he
            simp at he
  · intro W S T dwt2d splitBregman post w s hw hs
    rw [hw]
    simp only [radon_moreregE]
    rw [hs]
  · intro N P randomNormal a1 a2
    constructor
    · intro e
      cases hr : randomNormal with
      | error e1 => simp [radon_noiseE]
      | ok n => simp [radon_noiseE]
    · intro n hn
      rw [hn]
      rfl
  · intro F R A B fft2d restriction regInv splitBreg e he
    cases hf : fft2d with
    | error e1 =>
        left
        rw [hf] at he
        simp [radon_kkE] at he
        rw [he]
    | ok f =>
        right
        refine ⟨f, rfl, ?_⟩
        rw [hf] at he
        simp only [radon_kkE] at he
        cases hr : restriction with
        | error e2 =>
            left
            rw [hr] at he
            simp at he
            rw [he]
        | ok r =>
            right
            refine ⟨r, rfl, ?_⟩
            rw [hr] at he
            simp only at he
            cases hi : regInv f r with
            | error e3 =>
                left
                rw [hi] at he
                simp at he
                rw [he]
            | ok a =>
                right
                refine ⟨a, rfl, ?_⟩
                rw [hi] at he
                simp only at he
                cases ht : splitBreg f r with
                | error e4 =>
                    rw [ht] at he
                    simp at he
                    rw [he]
                | ok b =>
                    rw [ht] at he
                    simp at he

/-- Witness: the error-propagation theorem applied at a concrete
instantiation — both external calls succeed and `radon_moreregE` returns the
postprocessed solution. -/
theorem notebook_error_propagation_witness :
    ((Except.ok 0 : Except String ℕ) = Except.ok 0) ∧
    ((fun _ : ℕ => (Except.ok 1 : Except String ℕ)) 0 = Except.ok 1) ∧
    radon_moreregE (Except.ok 0 : Except String ℕ)
      (fun _ : ℕ => (Except.ok 1 : Except String ℕ)) (fun s : ℕ => s + 2) =
      Except.ok ((fun s : ℕ => s + 2) 1) :=
  ⟨rfl, rfl, notebook_error_propagation.2.2.1 ℕ ℕ ℕ (Except.ok 0)
    (fun _ => Except.ok 1) (fun s => s + 2) 0 1 rfl rfl⟩

/-- C10: for an empty angle list the loop body never runs and the external
`pylops.VStack` of the empty operator list raises, so `RadonRotate` returns
no projection operator; for any non-empty angle list it returns the stacked
operator — a non-empty angle list is an unchecked precondition of
`RadonRotate`. -/
theorem radonRotate_empty_thetas :
    (∀ nx ny inner : ℕ,
      RadonRotateE nx ny inner [] =
        Except.error "IndexError: list index out of range") ∧
    (∀ (nx ny inner : ℕ) (thetas : List ℝ), thetas ≠ [] →
      RadonRotateE nx ny inner thetas =
        Except.ok (RadonRotateFwd nx ny inner thetas)) := by
  constructor
  · intro nx ny inner
    rfl
  · intro nx ny inner thetas hne
    unfold RadonRotateE VStackE
    rw [if_neg (by simpa using hne)]
    rfl

/-- Witness: `RadonRotate` at the notebook's parameters with the non-empty
angle list `[45]` succeeds and returns the stacked operator. -/
theorem radonRotate_empty_thetas_witness :
    ([(45 : ℝ)] ≠ []) ∧
    RadonRotateE 300 300 100 [(45 : ℝ)] =
      Except.ok (RadonRotateFwd 300 300 100 [(45 : ℝ)]) :=
  ⟨by simp, radonRotate_empty_thetas.2 300 300 100 [(45 : ℝ)] (by simp)⟩
